import Mathlib

/-!
Shallow embedding of the CalibrationLib library
(`src/unnamed/part_005` = `CalibrationLib.cpp`,
 `src/unnamed/part_006` = `CalibrationLib.h`).

The library wraps an external namespace-scoped key/value store
(ESP32 `Preferences`), an external JSON library (ArduinoJson) and an
external block cipher (mbedtls AES).  Per the specification (section 6)
those collaborators are consumed through narrow interfaces; they are
modelled here as follows.

* The persistent store is a list of typed entries (enumeration order)
  plus a slot capacity; `freeEntries` is capacity minus the number of
  stored entries, `key(i)` enumerates stored keys (and yields the empty
  string out of range), typed `get` falls back to the supplied default
  when the key is absent or holds another type, and typed `put`
  overwrites in place or appends when a slot is free.
* `float` values are never computed with by any modelled code path:
  they are carried opaquely as their 32-bit payload (a `Nat`), so no
  floating-point arithmetic is involved.
* The JSON codec is modelled at the tree level: `serializeJson` /
  `deserializeJson` are assumed to be mutually inverse on flat object
  trees, so `exportToJson` produces the member list of the emitted
  object and `importFromJson` consumes such a member list.  The
  (external) `StaticJsonDocument` byte capacity is not modelled.
* The AES block primitive and the SHA-256 hash are taken as parameters
  (a keyed function on 16-byte blocks, respectively a function from
  passphrases to 32-byte digests); theorems assume only the properties
  the source relies on (block length preservation, inverse blocks).
* C pointers cannot be null in the embedding; byte buffers are
  `List Nat`.  A null passphrase is modelled by `Option String`.
-/

namespace CalibrationLib

/-- Error codes, from `CalibrationLib.h` (`enum CalibrationError`). -/
inductive CalibrationError where
  | CAL_OK
  | CAL_NOT_INITIALIZED
  | CAL_INVALID_PARAM
  | CAL_WRITE_ERROR
  | CAL_READ_ERROR
  | CAL_MEMORY_ERROR
  | CAL_ENCRYPTION_ERROR
deriving DecidableEq, Repr

/-- A typed value stored by the external `Preferences` store.  Floats are
carried opaquely as their 32-bit payload; `vULong` covers the
`putULong` entries (`_timestamp`). -/
inductive PrefVal where
  | vInt (i : Int)
  | vFloat (bits : Nat)
  | vStr (s : String)
  | vULong (n : Nat)
deriving DecidableEq, Repr

/-- `true` for the three scalar types handled by the JSON codec. -/
def PrefVal.isScalar : PrefVal → Bool
  | .vInt _ => true
  | .vFloat _ => true
  | .vStr _ => true
  | .vULong _ => false

/-- One `(key, value)` entry of the store. -/
structure Entry where
  key : String
  val : PrefVal
deriving DecidableEq, Repr

/-- Model of the external namespace-scoped `Preferences` store: the
entries currently present, in enumeration order, and the total number
of entry slots of the backing partition. -/
structure Preferences where
  entries : List Entry
  capacity : Nat
deriving DecidableEq, Repr

/-- First entry stored under `k`, if any. -/
def Preferences.findVal (p : Preferences) (k : String) : Option PrefVal :=
  (p.entries.find? (fun e => e.key = k)).map (fun e => e.val)

/-- `Preferences::isKey`. -/
def Preferences.isKey (p : Preferences) (k : String) : Bool :=
  (p.findVal k).isSome

/-- `Preferences::freeEntries`: number of free entry slots. -/
def Preferences.freeEntries (p : Preferences) : Nat :=
  p.capacity - p.entries.length

/-- `Preferences::key(i)`: the `i`-th stored key in enumeration order,
the empty string out of range. -/
def Preferences.keyAt (p : Preferences) (i : Nat) : String :=
  match p.entries.get? i with
  | some e => e.key
  | none => ""

/-- `Preferences::getType`, as consumed by `exportToJson`: a one-letter
type tag, empty when the key is absent. -/
def Preferences.getType (p : Preferences) (k : String) : String :=
  match p.findVal k with
  | some (.vInt _) => "i"
  | some (.vFloat _) => "f"
  | some (.vStr _) => "s"
  | some (.vULong _) => "u"
  | none => ""

/-- `Preferences::getInt(key, default)`: the stored value when the key
holds an int, the default otherwise (absent or type mismatch). -/
def Preferences.getIntD (p : Preferences) (k : String) (d : Int) : Int :=
  match p.findVal k with
  | some (.vInt i) => i
  | _ => d

/-- `Preferences::getFloat(key, default)` (payload carried opaquely). -/
def Preferences.getFloatD (p : Preferences) (k : String) (d : Nat) : Nat :=
  match p.findVal k with
  | some (.vFloat b) => b
  | _ => d

/-- `Preferences::getString(key, default)`. -/
def Preferences.getStringD (p : Preferences) (k : String) (d : String) : String :=
  match p.findVal k with
  | some (.vStr s) => s
  | _ => d

/-- Typed `Preferences::put*`: overwrite in place when the key exists
(the stored type silently changes, spec section 3), append when a slot
is free, fail when the store is full. -/
def Preferences.put (p : Preferences) (k : String) (v : PrefVal) :
    Bool × Preferences :=
  if p.entries.any (fun e => e.key = k) then
    (true, { p with
      entries := p.entries.map (fun e => if e.key = k then ⟨k, v⟩ else e) })
  else if p.entries.length < p.capacity then
    (true, { p with entries := p.entries ++ [⟨k, v⟩] })
  else
    (false, p)

/-- `Preferences::clear`: removes every entry of the open namespace. -/
def Preferences.clear (p : Preferences) : Bool × Preferences :=
  (true, { p with entries := [] })

/-- The `CalibrationLib` accessor state: the private fields of the class
that the modelled methods read or write (`_preferences`, `_initialized`,
`_lastError`, `_encryptionEnabled`, `_encryptionKey`, `_batchMode`). -/
structure CalState where
  preferences : Preferences
  initialized : Bool
  lastError : CalibrationError
  encryptionEnabled : Bool
  encryptionKey : List Nat
  batchMode : Bool
deriving DecidableEq, Repr

/-- `CalibrationLib::setError`: records the error in `_lastError`
(logging is an external side effect and is not modelled). -/
def setError (s : CalState) (e : CalibrationError) : CalState :=
  { s with lastError := e }

/-- `CalibrationLib::setCalibrationValue(const char*, int)`. -/
def setCalibrationValueInt (s : CalState) (k : String) (v : Int) :
    Bool × CalState :=
  if s.initialized = false then (false, s)
  else
    let r := s.preferences.put k (.vInt v)
    (r.1, { s with preferences := r.2 })

/-- `CalibrationLib::setCalibrationValue(const char*, float)`. -/
def setCalibrationValueFloat (s : CalState) (k : String) (v : Nat) :
    Bool × CalState :=
  if s.initialized = false then (false, s)
  else
    let r := s.preferences.put k (.vFloat v)
    (r.1, { s with preferences := r.2 })

/-- `CalibrationLib::setCalibrationValue(const char*, const char*)`. -/
def setCalibrationValueString (s : CalState) (k : String) (v : String) :
    Bool × CalState :=
  if s.initialized = false then (false, s)
  else
    let r := s.preferences.put k (.vStr v)
    (r.1, { s with preferences := r.2 })

/-- `CalibrationLib::getCalibrationValue(const char*, int&, int)`.
Returns (out-parameter value, returned bool, resulting state). -/
def getCalibrationValueInt (s : CalState) (k : String) (d : Int) :
    Int × Bool × CalState :=
  if s.initialized = false then (d, false, s)
  else (s.preferences.getIntD k d, s.preferences.isKey k, s)

/-- `CalibrationLib::getCalibrationValue(const char*, float&, float)`. -/
def getCalibrationValueFloat (s : CalState) (k : String) (d : Nat) :
    Nat × Bool × CalState :=
  if s.initialized = false then (d, false, s)
  else (s.preferences.getFloatD k d, s.preferences.isKey k, s)

/-- `CalibrationLib::getCalibrationValue(const char*, String&, const char*)`. -/
def getCalibrationValueString (s : CalState) (k : String) (d : String) :
    String × Bool × CalState :=
  if s.initialized = false then (d, false, s)
  else (s.preferences.getStringD k d, s.preferences.isKey k, s)

/-- `CalibrationLib::hasCalibrationValue`. -/
def hasCalibrationValue (s : CalState) (k : String) : Bool :=
  if s.initialized = false then false else s.preferences.isKey k

/-- `CalibrationLib::clearAllCalibrationValues`. -/
def clearAllCalibrationValues (s : CalState) : Bool × CalState :=
  if s.initialized = false then (false, s)
  else
    let r := s.preferences.clear
    (r.1, { s with preferences := r.2 })

/-- `CalibrationLib::getFreeSpace`. -/
def getFreeSpace (s : CalState) : Nat :=
  if s.initialized then s.preferences.freeEntries else 0

/-- `CalibrationLib::getUsedSpace`: literally
`_initialized ? (_preferences.freeEntries() - getFreeSpace()) : 0`. -/
def getUsedSpace (s : CalState) : Nat :=
  if s.initialized then s.preferences.freeEntries - getFreeSpace s else 0

/-- `CalibrationLib::batchBegin`. -/
def batchBegin (s : CalState) : Bool × CalState :=
  if s.initialized = false then (false, setError s .CAL_NOT_INITIALIZED)
  else (true, { s with batchMode := true })

/-- `CalibrationLib::batchCommit`. -/
def batchCommit (s : CalState) : Bool × CalState :=
  if s.initialized = false ∨ s.batchMode = false then
    (false, setError s .CAL_NOT_INITIALIZED)
  else (true, { s with batchMode := false })

/-- `CalibrationLib::batchRollback`. -/
def batchRollback (s : CalState) : Bool × CalState :=
  if s.initialized = false ∨ s.batchMode = false then
    (false, setError s .CAL_NOT_INITIALIZED)
  else (true, { s with batchMode := false })

/-- `CalibrationLib::enableEncryption(const char* key)`.  The SHA-256
digest is the external hash primitive, passed as `H`; a null passphrase
is `none`. -/
def enableEncryption (H : String → List Nat) (s : CalState)
    (pass : Option String) : Bool × CalState :=
  match pass with
  | none => (false, setError s .CAL_ENCRYPTION_ERROR)
  | some p =>
    if p.length < 16 then (false, setError s .CAL_ENCRYPTION_ERROR)
    else
      (true, { s with encryptionKey := H p, encryptionEnabled := true })

/-- `CalibrationLib::disableEncryption`. -/
def disableEncryption (s : CalState) : Bool × CalState :=
  if s.encryptionEnabled = false then (true, s)
  else
    (true, { s with encryptionKey := List.replicate 32 0,
                    encryptionEnabled := false })

/-- A JSON value as produced/consumed by the external JSON library.
Only the payloads the code reads back are carried; array and object
values are opaque (`importFromJson` never looks inside them). -/
inductive JVal where
  | jInt (i : Int)
  | jFloat (bits : Nat)
  | jStr (s : String)
  | jNull
  | jArr
  | jObj
deriving DecidableEq, Repr

/-- `root[key] = v` on a JSON object: replaces the member when the key
is already present, appends it otherwise. -/
def upsert (m : List (String × JVal)) (k : String) (v : JVal) :
    List (String × JVal) :=
  if m.any (fun kv => kv.1 = k) then
    m.map (fun kv => if kv.1 = k then (k, v) else kv)
  else m ++ [(k, v)]

/-- One iteration of the `exportToJson` loop body at index `i`:
`key = _preferences.key(i)`, `type = _preferences.getType(key)`, then
`root[key] = ...` for the tags "i"/"f"/"s" and nothing otherwise (the
source's local variables `key` and `type` are inlined here). -/
def exportStep (p : Preferences) (acc : List (String × JVal)) (i : Nat) :
    List (String × JVal) :=
  if p.getType (p.keyAt i) = "i" then
    upsert acc (p.keyAt i) (.jInt (p.getIntD (p.keyAt i) 0))
  else if p.getType (p.keyAt i) = "f" then
    upsert acc (p.keyAt i) (.jFloat (p.getFloatD (p.keyAt i) 0))
  else if p.getType (p.keyAt i) = "s" then
    upsert acc (p.keyAt i) (.jStr (p.getStringD (p.keyAt i) ""))
  else acc

/-- The member list of the JSON object built by `exportToJson`: the loop
runs for `i = 0, ..., freeEntries() - 1`. -/
def exportTree (p : Preferences) : List (String × JVal) :=
  (List.range p.freeEntries).foldl (exportStep p) []

/-- `CalibrationLib::exportToJson`.  The external `serializeJson` is
modelled as the identity on the built object tree, so the produced
string is represented by the object's member list. -/
def exportToJson (s : CalState) : Option (List (String × JVal)) × CalState :=
  if s.initialized = false then (none, s)
  else (some (exportTree s.preferences), s)

/-- One iteration of the `importFromJson` loop: dispatch on the JSON
value's type (`is<int>`, then `is<float>`, then `is<const char*>`) and
call the corresponding `setCalibrationValue`; other shapes (null,
array, object) write nothing. -/
def importPair (s : CalState) (kv : String × JVal) : CalState :=
  match kv.2 with
  | .jInt i => (setCalibrationValueInt s kv.1 i).2
  | .jFloat b => (setCalibrationValueFloat s kv.1 b).2
  | .jStr str => (setCalibrationValueString s kv.1 str).2
  | .jNull => s
  | .jArr => s
  | .jObj => s

/-- `CalibrationLib::importFromJson` on a successfully parsed flat
object (the external `deserializeJson` is assumed to invert
`serializeJson` on such trees; its parse-error branch is outside the
tree-level model). -/
def importFromJson (s : CalState) (tree : List (String × JVal)) :
    Bool × CalState :=
  if s.initialized = false then (false, s)
  else (true, tree.foldl importPair s)

/-- Fuel-based worker for splitting a byte buffer into consecutive
16-byte blocks (the `i += 16` loops of `encryptData`/`decryptData`);
the fuel is an upper bound on the buffer length, so the recursion is
structural and computable by the kernel. -/
def chunksGo : Nat → List Nat → List (List Nat)
  | _, [] => []
  | 0, _ :: _ => []
  | fuel + 1, x :: xs =>
    (x :: xs).take 16 :: chunksGo fuel ((x :: xs).drop 16)

/-- The consecutive 16-byte blocks of a buffer. -/
def chunks16 (l : List Nat) : List (List Nat) :=
  chunksGo l.length l

/-- The PKCS7 padding step of `encryptData`:
`paddingSize = 16 - (size % 16)` bytes, each equal to `paddingSize`,
appended to the plaintext. -/
def pkcs7pad (data : List Nat) : List Nat :=
  data ++ List.replicate (16 - data.length % 16) (16 - data.length % 16)

/-- `CalibrationLib::encryptData`.  `aes k b` is the external
`mbedtls_aes_encrypt` under the 256-bit key `k` (the state's retained
`_encryptionKey`); the null-pointer guards on `data`/`encrypted` cannot
fire in the embedding.  Returns the ciphertext (`encrypted`/`encSize`)
on success. -/
def encryptData (aes : List Nat → List Nat → List Nat) (s : CalState)
    (data : List Nat) : Option (List Nat) × CalState :=
  if s.encryptionEnabled = false then
    (none, setError s .CAL_ENCRYPTION_ERROR)
  else
    (some (((chunks16 (pkcs7pad data)).map
      (aes s.encryptionKey)).flatten), s)

/-- Outcome of `decryptData`: success with the recovered bytes, a
`false` return (guard or padding failure), or the out-of-bounds read of
`decrypted[encSize - 1]` when `encSize = 0` (undefined behavior in the
source, made explicit here). -/
inductive DecryptResult where
  | ok (data : List Nat)
  | err
  | oob
deriving DecidableEq, Repr

/-- `CalibrationLib::decryptData`.  `aes k b` is the external
`mbedtls_aes_decrypt` under key `k`.  The padding byte is read at index
`encSize - 1` of the decrypted buffer; when that index is out of range
(`encSize = 0`) the source commits an out-of-bounds read, reported as
`DecryptResult.oob`. -/
def decryptData (aes : List Nat → List Nat → List Nat) (s : CalState)
    (enc : List Nat) : DecryptResult × CalState :=
  if s.encryptionEnabled = false ∨ enc.length % 16 ≠ 0 then
    (.err, setError s .CAL_ENCRYPTION_ERROR)
  else
    match (((chunks16 enc).map (aes s.encryptionKey)).flatten).get?
        (enc.length - 1) with
    | none => (.oob, s)
    | some paddingSize =>
      if 16 < paddingSize then (.err, setError s .CAL_ENCRYPTION_ERROR)
      else
        (.ok ((((chunks16 enc).map (aes s.encryptionKey)).flatten).take
          (enc.length - paddingSize)), s)

/-- The JSON object member an entry contributes to `exportToJson`
(`root[key] = ...` dispatched on the stored type tag).  The `vULong`
case is unreachable for scalar-only namespaces (`exportToJson` skips
such entries; the placeholder value is arbitrary). -/
def Entry.toPair (e : Entry) : String × JVal :=
  (e.key,
    match e.val with
    | .vInt i => .jInt i
    | .vFloat b => .jFloat b
    | .vStr s => .jStr s
    | .vULong _ => .jNull)

/-- A healthy open namespace used by concrete witnesses: three scalar
entries, plenty of free slots. -/
def samplePrefs : Preferences :=
  { entries := [⟨"offset", .vInt 42⟩, ⟨"scale", .vFloat 3⟩,
                ⟨"name", .vStr "X"⟩],
    capacity := 8 }

/-- Accessor state with `samplePrefs` open. -/
def sampleState : CalState :=
  { preferences := samplePrefs, initialized := true, lastError := .CAL_OK,
    encryptionEnabled := false, encryptionKey := [], batchMode := false }

/-- A crowded namespace: three entries but only one free slot, so the
`exportToJson` loop (bounded by `freeEntries()`) visits one entry. -/
def crowdedPrefs : Preferences :=
  { entries := [⟨"a", .vInt 1⟩, ⟨"b", .vInt 2⟩, ⟨"c", .vInt 3⟩],
    capacity := 4 }

/-- Accessor state with `crowdedPrefs` open. -/
def crowdedState : CalState :=
  { preferences := crowdedPrefs, initialized := true, lastError := .CAL_OK,
    encryptionEnabled := false, encryptionKey := [], batchMode := false }

/-- A freshly constructed accessor: not initialized, no error. -/
def freshState : CalState :=
  { preferences := { entries := [], capacity := 8 }, initialized := false,
    lastError := .CAL_OK, encryptionEnabled := false, encryptionKey := [],
    batchMode := false }

/-- An accessor with encryption enabled under a fixed 32-byte key. -/
def encStateA : CalState :=
  { preferences := samplePrefs, initialized := true, lastError := .CAL_OK,
    encryptionEnabled := true, encryptionKey := List.replicate 32 7,
    batchMode := false }

/-- Same retained key and flag as `encStateA`, every other field
different. -/
def encStateB : CalState :=
  { preferences := crowdedPrefs, initialized := false,
    lastError := .CAL_WRITE_ERROR, encryptionEnabled := true,
    encryptionKey := List.replicate 32 7, batchMode := true }

/-- A stand-in for the external SHA-256 digest used by concrete
witnesses: some fixed 32-byte output. -/
def sampleHash (_p : String) : List Nat :=
  List.replicate 32 0

/-! ### Block-splitting lemmas -/

lemma chunksGo_fuel (f1 : Nat) : ∀ (f2 : Nat) (l : List Nat),
    l.length ≤ f1 → l.length ≤ f2 → chunksGo f1 l = chunksGo f2 l := by
  induction f1 with
  | zero =>
    intro f2 l h1 _
    cases l with
    | nil => cases f2 <;> rfl
    | cons x xs => simp at h1
  | succ g1 ih =>
    intro f2 l h1 h2
    cases l with
    | nil => cases f2 <;> rfl
    | cons x xs =>
      cases f2 with
      | zero => simp at h2
      | succ g2 =>
        simp only [chunksGo]
        congr 1
        simp only [List.length_cons] at h1 h2
        apply ih
        · simp only [List.length_drop, List.length_cons]; omega
        · simp only [List.length_drop, List.length_cons]; omega

lemma chunks16_nil : chunks16 [] = [] := rfl

lemma chunks16_cons (l : List Nat) (h : l ≠ []) :
    chunks16 l = l.take 16 :: chunks16 (l.drop 16) := by
  cases l with
  | nil => exact absurd rfl h
  | cons x xs =>
    show chunksGo (xs.length + 1) (x :: xs) = _
    simp only [chunksGo, chunks16]
    congr 1
    apply chunksGo_fuel
    · simp only [List.length_drop, List.length_cons]; omega
    · exact le_rfl

lemma flatten_chunks16_aux : ∀ (n : Nat) (l : List Nat), l.length ≤ n →
    (chunks16 l).flatten = l := by
  intro n
  induction n with
  | zero =>
    intro l h
    cases l with
    | nil => rfl
    | cons x xs => simp at h
  | succ m ih =>
    intro l h
    by_cases hl : l = []
    · subst hl; rfl
    · rw [chunks16_cons l hl]
      have hlen : 0 < l.length := List.length_pos.mpr hl
      have : (l.drop 16).length ≤ m := by
        simp only [List.length_drop]; omega
      simp only [List.flatten_cons, ih (l.drop 16) this,
        List.take_append_drop]

lemma flatten_chunks16 (l : List Nat) : (chunks16 l).flatten = l :=
  flatten_chunks16_aux l.length l le_rfl

lemma chunks16_len16_aux : ∀ (n : Nat) (l : List Nat), l.length ≤ n →
    l.length % 16 = 0 → ∀ c ∈ chunks16 l, c.length = 16 := by
  intro n
  induction n with
  | zero =>
    intro l h _ c hc
    cases l with
    | nil => simp [chunks16_nil] at hc
    | cons x xs => simp at h
  | succ m ih =>
    intro l h hm c hc
    by_cases hl : l = []
    · subst hl; simp [chunks16_nil] at hc
    · rw [chunks16_cons l hl] at hc
      have hlen : 0 < l.length := List.length_pos.mpr hl
      rcases List.mem_cons.mp hc with hc | hc
      · subst hc
        simp only [List.length_take]
        omega
      · exact ih (l.drop 16)
          (by simp only [List.length_drop]; omega)
          (by simp only [List.length_drop]; omega) c hc

lemma chunks16_len16 (l : List Nat) (hm : l.length % 16 = 0) :
    ∀ c ∈ chunks16 l, c.length = 16 :=
  chunks16_len16_aux l.length l le_rfl hm

lemma chunks16_flatten (ls : List (List Nat))
    (h : ∀ c ∈ ls, c.length = 16) : chunks16 ls.flatten = ls := by
  induction ls with
  | nil => rfl
  | cons c cs ih =>
    have hc : c.length = 16 := h c (by simp)
    have hcne : c ≠ [] := by
      intro hx; rw [hx] at hc; simp at hc
    have hne : c ++ cs.flatten ≠ [] := by
      cases c with
      | nil => exact absurd rfl hcne
      | cons a t => simp
    rw [List.flatten_cons, chunks16_cons _ hne]
    have ht : (c ++ cs.flatten).take 16 = c := by
      rw [← hc]; exact List.take_left c cs.flatten
    have hd : (c ++ cs.flatten).drop 16 = cs.flatten := by
      rw [← hc]; exact List.drop_left c cs.flatten
    rw [ht, hd, ih (fun x hx => h x (by simp [hx]))]

lemma flatten_len16 (ls : List (List Nat))
    (h : ∀ c ∈ ls, c.length = 16) : ls.flatten.length = 16 * ls.length := by
  induction ls with
  | nil => rfl
  | cons c cs ih =>
    simp only [List.flatten_cons, List.length_append, List.length_cons,
      h c (by simp), ih (fun x hx => h x (by simp [hx]))]
    ring

/-! ### PKCS7 padding lemmas -/

lemma pkcs7pad_length (x : List Nat) :
    (pkcs7pad x).length = x.length + (16 - x.length % 16) := by
  simp [pkcs7pad]

lemma pkcs7pad_mod (x : List Nat) : (pkcs7pad x).length % 16 = 0 := by
  rw [pkcs7pad_length]; omega

lemma pkcs7pad_last (x : List Nat) :
    (pkcs7pad x).get? ((pkcs7pad x).length - 1)
      = some (16 - x.length % 16) := by
  have hp : 1 ≤ 16 - x.length % 16 := by omega
  rw [pkcs7pad_length]
  show (x ++ List.replicate (16 - x.length % 16) (16 - x.length % 16)).get? _
      = _
  rw [List.get?_eq_getElem?, List.getElem?_append_right (by omega)]
  rw [List.getElem?_replicate, if_pos (by omega)]

lemma pkcs7pad_take (x : List Nat) : (pkcs7pad x).take x.length = x := by
  show (x ++ _).take x.length = x
  exact List.take_left x _

lemma flatten_map_len16 (F : List Nat → List Nat) (l : List Nat)
    (hm : l.length % 16 = 0)
    (hF : ∀ b, b.length = 16 → (F b).length = 16) :
    (((chunks16 l).map F).flatten).length = l.length := by
  have hchunks : ∀ b ∈ chunks16 l, b.length = 16 := chunks16_len16 l hm
  have hmapped : ∀ blk ∈ (chunks16 l).map F, blk.length = 16 := by
    intro blk hblk
    rcases List.mem_map.mp hblk with ⟨b, hb, rfl⟩
    exact hF b (hchunks b hb)
  rw [flatten_len16 _ hmapped, List.length_map]
  conv_rhs => rw [← flatten_chunks16 l]
  rw [flatten_len16 _ hchunks]

/-- C3: with encryption enabled, for every plaintext byte sequence `x`
(hence in particular every length from 0 to 1024, multiples of 16
included), `decryptData` applied to the output of `encryptData x`
returns exactly the bytes of `x`.  The external AES primitive is any
pair of keyed block maps that are mutually inverse and length-preserving
on 16-byte blocks. -/
theorem decrypt_inverts_encrypt (E D : List Nat → List Nat → List Nat)
    (s : CalState) (x : List Nat)
    (hen : s.encryptionEnabled = true)
    (hElen : ∀ b, b.length = 16 → (E s.encryptionKey b).length = 16)
    (hinv : ∀ b, b.length = 16 →
      D s.encryptionKey (E s.encryptionKey b) = b) :
    ∃ c, (encryptData E s x).1 = some c
      ∧ (decryptData D s c).1 = DecryptResult.ok x := by
  refine ⟨((chunks16 (pkcs7pad x)).map (E s.encryptionKey)).flatten,
    ?_, ?_⟩
  · simp [encryptData, hen]
  · set P := pkcs7pad x with hP
    set c := ((chunks16 P).map (E s.encryptionKey)).flatten with hc
    have hPmod : P.length % 16 = 0 := pkcs7pad_mod x
    have hchunksP : ∀ b ∈ chunks16 P, b.length = 16 := chunks16_len16 P hPmod
    have hmapped : ∀ blk ∈ (chunks16 P).map (E s.encryptionKey),
        blk.length = 16 := by
      intro blk hblk
      rcases List.mem_map.mp hblk with ⟨b, hb, rfl⟩
      exact hElen b (hchunksP b hb)
    have hclen : c.length = P.length :=
      flatten_map_len16 (E s.encryptionKey) P hPmod hElen
    have hcmod : c.length % 16 = 0 := by rw [hclen]; exact hPmod
    have hchunksc : chunks16 c = (chunks16 P).map (E s.encryptionKey) :=
      chunks16_flatten _ hmapped
    have hdec : ((chunks16 c).map (D s.encryptionKey)).flatten = P := by
      rw [hchunksc, List.map_map]
      have heq : (chunks16 P).map (D s.encryptionKey ∘ E s.encryptionKey)
          = (chunks16 P).map id :=
        List.map_congr_left (fun b hb => by
          simp only [Function.comp_apply, id_eq]
          exact hinv b (hchunksP b hb))
      rw [heq, List.map_id, flatten_chunks16]
    have hguard : ¬ (s.encryptionEnabled = false ∨ c.length % 16 ≠ 0) := by
      simp [hen, hcmod]
    have hpadlen : P.length = x.length + (16 - x.length % 16) :=
      pkcs7pad_length x
    have hplast : P.get? (c.length - 1) = some (16 - x.length % 16) := by
      rw [hclen]; exact pkcs7pad_last x
    simp only [decryptData, if_neg hguard, hdec, hplast]
    rw [if_neg (by omega)]
    have hsz : c.length - (16 - x.length % 16) = x.length := by omega
    rw [hsz, pkcs7pad_take]

/-- C3 witness: the identity block map at the concrete plaintext
`[1, 2, 3]` in a state with encryption enabled. -/
theorem decrypt_inverts_encrypt_witness :
    ∃ c, (encryptData (fun _ b => b) encStateA [1, 2, 3]).1 = some c
      ∧ (decryptData (fun _ b => b) encStateA c).1
          = DecryptResult.ok [1, 2, 3] :=
  decrypt_inverts_encrypt (fun _ b => b) (fun _ b => b) encStateA [1, 2, 3]
    rfl (fun _ hb => hb) (fun _ _ => rfl)

/-- C8: `encryptData` is deterministic given the retained key: two
calls on the same 16-byte-aligned plaintext in any two states carrying
the same enabled key (everything else — store contents, batch flag,
last error — may differ) produce identical ciphertexts; no per-message
nonce or IV enters the computation. -/
theorem encryptData_no_iv_deterministic
    (E : List Nat → List Nat → List Nat) (s1 s2 : CalState) (x : List Nat)
    (hen1 : s1.encryptionEnabled = true)
    (hen2 : s2.encryptionEnabled = true)
    (hkey : s1.encryptionKey = s2.encryptionKey)
    (_halign : x.length % 16 = 0) :
    (encryptData E s1 x).1 = (encryptData E s2 x).1 := by
  simp [encryptData, hen1, hen2, hkey]

/-- C8 witness: two concrete states differing in store contents,
initialization, last error and batch flag but sharing the enabled key
encrypt the aligned plaintext `replicate 16 0` identically. -/
theorem encryptData_no_iv_witness :
    (encryptData (fun k b => k ++ b) encStateA (List.replicate 16 0)).1
      = (encryptData (fun k b => k ++ b) encStateB
          (List.replicate 16 0)).1 :=
  encryptData_no_iv_deterministic (fun k b => k ++ b) encStateA encStateB
    (List.replicate 16 0) rfl rfl rfl (by decide)

/-- C10: with encryption enabled and a length-preserving block map, the
`decryptData` guards accept `encSize = 0` (it is a multiple of 16), and
the padding-byte read at index `encSize - 1` is out of bounds exactly
when `encSize = 0`; every well-aligned nonempty ciphertext keeps the
read in range, so a total embedding needs the extra precondition
`encSize > 0`. -/
theorem decryptData_oob_iff (D : List Nat → List Nat → List Nat)
    (s : CalState) (enc : List Nat)
    (hen : s.encryptionEnabled = true)
    (hDlen : ∀ b, b.length = 16 → (D s.encryptionKey b).length = 16)
    (hm : enc.length % 16 = 0) :
    (decryptData D s enc).1 = DecryptResult.oob ↔ enc = [] := by
  constructor
  · intro h
    by_contra hne
    have hdlen : (((chunks16 enc).map (D s.encryptionKey)).flatten).length
        = enc.length := flatten_map_len16 (D s.encryptionKey) enc hm hDlen
    have hpos : 0 < enc.length := List.length_pos.mpr hne
    have hguard : ¬ (s.encryptionEnabled = false ∨ enc.length % 16 ≠ 0) := by
      simp [hen, hm]
    simp only [decryptData, if_neg hguard] at h
    cases hq : (((chunks16 enc).map (D s.encryptionKey)).flatten).get?
        (enc.length - 1) with
    | none =>
      have := List.get?_eq_none.mp hq
      omega
    | some p =>
      rw [hq] at h
      by_cases hp : 16 < p
      · simp [hp] at h
      · simp [hp] at h
  · intro h
    subst h
    simp [decryptData, hen, chunks16_nil]

/-- C10 witness: the empty ciphertext under the identity block map in a
state with encryption enabled triggers the out-of-bounds padding
read. -/
theorem decryptData_oob_witness :
    (decryptData (fun _ b => b) encStateA []).1 = DecryptResult.oob :=
  (decryptData_oob_iff (fun _ b => b) encStateA [] rfl (fun b hb => hb)
    (by decide)).mpr rfl

/-- C6: `getUsedSpace` returns 0 in every accessor state: when
initialized it computes `freeEntries() - getFreeSpace()`, which is
`free - free`; otherwise it returns 0 directly. -/
theorem getUsedSpace_always_zero (s : CalState) : getUsedSpace s = 0 := by
  unfold getUsedSpace getFreeSpace
  cases h : s.initialized <;> simp [h]

/-- C5 counterexample: on a not-open accessor with a clean error field,
`setCalibrationValue` returns false but does not record
`CAL_NOT_INITIALIZED` — the error field still holds `CAL_OK`, refuting
the claim that the failure records the NotInitialized error. -/
theorem setCalibrationValue_not_initialized_cex :
    (setCalibrationValueInt freshState "k" 1).1 = false
    ∧ (setCalibrationValueInt freshState "k" 1).2.lastError
        = CalibrationError.CAL_OK
    ∧ (setCalibrationValueInt freshState "k" 1).2.lastError
        ≠ CalibrationError.CAL_NOT_INITIALIZED := by
  decide

/-- C5 (amended): for each scalar overload, `setCalibrationValue` on a
not-open accessor returns false leaving the whole state — in particular
the last-error field — unchanged (no error is recorded); on an open
accessor it delegates to the store's typed write and returns that
write's success or failure. -/
theorem setCalibrationValue_spec (s : CalState) (k : String) (vi : Int)
    (vf : Nat) (vs : String) :
    (s.initialized = false →
      setCalibrationValueInt s k vi = (false, s)
      ∧ setCalibrationValueFloat s k vf = (false, s)
      ∧ setCalibrationValueString s k vs = (false, s))
    ∧ (s.initialized = true →
      setCalibrationValueInt s k vi
        = ((s.preferences.put k (.vInt vi)).1,
           { s with preferences := (s.preferences.put k (.vInt vi)).2 })
      ∧ setCalibrationValueFloat s k vf
        = ((s.preferences.put k (.vFloat vf)).1,
           { s with preferences := (s.preferences.put k (.vFloat vf)).2 })
      ∧ setCalibrationValueString s k vs
        = ((s.preferences.put k (.vStr vs)).1,
           { s with preferences := (s.preferences.put k (.vStr vs)).2 })) := by
  constructor <;> intro h <;>
    simp [setCalibrationValueInt, setCalibrationValueFloat,
      setCalibrationValueString, h]

/-- C5 witness: the amended behavior at a concrete not-open state. -/
theorem setCalibrationValue_spec_witness :
    setCalibrationValueInt freshState "k" 1 = (false, freshState) :=
  ((setCalibrationValue_spec freshState "k" 1 0 "").1 rfl).1

/-- C4: for every key and default, each `getCalibrationValue` overload
on a not-open accessor writes the default to the out-parameter and
returns false; on an open accessor it writes the typed stored value
when the key holds one (returning true), falls back to the default when
the key is absent (returning false), returns `isKey` exactly, and
leaves the last-error field untouched (so an absent key never raises an
error distinct from `CAL_OK`). -/
theorem getCalibrationValue_spec (s : CalState) (k : String) (di : Int)
    (df : Nat) (ds : String) :
    (s.initialized = false →
      getCalibrationValueInt s k di = (di, false, s)
      ∧ getCalibrationValueFloat s k df = (df, false, s)
      ∧ getCalibrationValueString s k ds = (ds, false, s))
    ∧ (s.initialized = true →
      (∀ v, s.preferences.findVal k = some (.vInt v) →
        getCalibrationValueInt s k di = (v, true, s))
      ∧ (∀ b, s.preferences.findVal k = some (.vFloat b) →
        getCalibrationValueFloat s k df = (b, true, s))
      ∧ (∀ str, s.preferences.findVal k = some (.vStr str) →
        getCalibrationValueString s k ds = (str, true, s))
      ∧ (s.preferences.findVal k = none →
        getCalibrationValueInt s k di = (di, false, s)
        ∧ getCalibrationValueFloat s k df = (df, false, s)
        ∧ getCalibrationValueString s k ds = (ds, false, s))
      ∧ (getCalibrationValueInt s k di).2.1 = s.preferences.isKey k
      ∧ (getCalibrationValueFloat s k df).2.1 = s.preferences.isKey k
      ∧ (getCalibrationValueString s k ds).2.1 = s.preferences.isKey k
      ∧ (getCalibrationValueInt s k di).2.2.lastError = s.lastError) := by
  constructor
  · intro h
    simp [getCalibrationValueInt, getCalibrationValueFloat,
      getCalibrationValueString, h]
  · intro h
    refine ⟨?_, ?_, ?_, ?_, ?_, ?_, ?_, ?_⟩
    · intro v hv
      simp [getCalibrationValueInt, h, Preferences.getIntD,
        Preferences.isKey, hv]
    · intro b hb
      simp [getCalibrationValueFloat, h, Preferences.getFloatD,
        Preferences.isKey, hb]
    · intro str hs
      simp [getCalibrationValueString, h, Preferences.getStringD,
        Preferences.isKey, hs]
    · intro hnone
      simp [getCalibrationValueInt, getCalibrationValueFloat,
        getCalibrationValueString, h, Preferences.getIntD,
        Preferences.getFloatD, Preferences.getStringD,
        Preferences.isKey, hnone]
    · simp [getCalibrationValueInt, h]
    · simp [getCalibrationValueFloat, h]
    · simp [getCalibrationValueString, h]
    · simp [getCalibrationValueInt, h]

/-- C4 witness: the open accessor `sampleState` returns the stored int
42 for "offset" (and the default with false on the not-open
`freshState`). -/
theorem getCalibrationValue_spec_witness :
    getCalibrationValueInt sampleState "offset" 0 = (42, true, sampleState)
    ∧ getCalibrationValueInt freshState "k" 7 = (7, false, freshState) :=
  ⟨((getCalibrationValue_spec sampleState "offset" 0 0 "").2 rfl).1 42
      (by decide),
   ((getCalibrationValue_spec freshState "k" 7 0 "").1 rfl).1⟩

/-- C7: `enableEncryption` fails with `CAL_ENCRYPTION_ERROR` (returns
false and records the error) for a null passphrase or one shorter than
16 characters; for any passphrase of length at least 16 it stores the
hash-derived key (256 bits — 32 bytes — whenever the hash primitive
produces 32 bytes), sets the encryption-enabled flag, and returns
true. -/
theorem enableEncryption_spec (H : String → List Nat) (s : CalState)
    (pass : Option String) (h32 : ∀ p, (H p).length = 32) :
    ((pass = none ∨ ∃ p, pass = some p ∧ p.length < 16) →
      (enableEncryption H s pass).1 = false
      ∧ (enableEncryption H s pass).2.lastError
          = CalibrationError.CAL_ENCRYPTION_ERROR)
    ∧ (∀ p, pass = some p → 16 ≤ p.length →
      enableEncryption H s pass
        = (true, { s with encryptionKey := H p, encryptionEnabled := true })
      ∧ ((enableEncryption H s pass).2.encryptionKey).length = 32) := by
  constructor
  · intro h
    rcases pass with _ | q
    · simp [enableEncryption, setError]
    · rcases h with h | ⟨p, hp, hlt⟩
      · exact absurd h (by simp)
      · have : q = p := by injection hp
        subst this
        simp [enableEncryption, setError, hlt]
  · intro p hp hge
    subst hp
    have hnl : ¬ (p.length < 16) := by omega
    simp [enableEncryption, hnl, h32 p]

/-- C7 witness: a concrete 16-character passphrase enables encryption
and retains the derived key; the 3-character one fails recording
`CAL_ENCRYPTION_ERROR`. -/
theorem enableEncryption_spec_witness :
    enableEncryption sampleHash freshState (some "0123456789abcdef")
      = (true, { freshState with
          encryptionKey := sampleHash "0123456789abcdef",
          encryptionEnabled := true })
    ∧ (enableEncryption sampleHash freshState (some "abc")).1 = false :=
  ⟨((enableEncryption_spec sampleHash freshState (some "0123456789abcdef")
      (fun p => rfl)).2 "0123456789abcdef" rfl (by decide)).1,
   ((enableEncryption_spec sampleHash freshState (some "abc")
      (fun p => rfl)).1 (Or.inr ⟨"abc", rfl, by decide⟩)).1⟩

/-- C9: `batchBegin`, `batchCommit` and `batchRollback` modify only the
in-memory batch flag (and, on failure, the last-error field): the
store, the initialized flag and the encryption fields are untouched by
all three — in particular `batchRollback` leaves every entry of the
open namespace unchanged — and on the success paths even the last-error
field is untouched. -/
theorem batch_ops_frame (s : CalState) :
    ((batchBegin s).2.preferences = s.preferences
      ∧ (batchBegin s).2.initialized = s.initialized
      ∧ (batchBegin s).2.encryptionEnabled = s.encryptionEnabled
      ∧ (batchBegin s).2.encryptionKey = s.encryptionKey)
    ∧ ((batchCommit s).2.preferences = s.preferences
      ∧ (batchCommit s).2.initialized = s.initialized
      ∧ (batchCommit s).2.encryptionEnabled = s.encryptionEnabled
      ∧ (batchCommit s).2.encryptionKey = s.encryptionKey)
    ∧ ((batchRollback s).2.preferences = s.preferences
      ∧ (batchRollback s).2.initialized = s.initialized
      ∧ (batchRollback s).2.encryptionEnabled = s.encryptionEnabled
      ∧ (batchRollback s).2.encryptionKey = s.encryptionKey)
    ∧ (batchRollback s).2.preferences.entries = s.preferences.entries
    ∧ ((batchBegin s).1 = true → (batchBegin s).2.lastError = s.lastError)
    ∧ ((batchCommit s).1 = true → (batchCommit s).2.lastError = s.lastError)
    ∧ ((batchRollback s).1 = true →
        (batchRollback s).2.lastError = s.lastError) := by
  by_cases h1 : s.initialized = false <;> by_cases h2 : s.batchMode = false <;>
    simp [batchBegin, batchCommit, batchRollback, setError, h1, h2]

/-- C9 witness: at a concrete open state, `batchRollback` leaves the
store untouched and a successful `batchBegin` leaves the error field
untouched. -/
theorem batch_ops_frame_witness :
    (batchRollback sampleState).2.preferences = sampleState.preferences
    ∧ (batchBegin sampleState).2.lastError = sampleState.lastError := by
  obtain ⟨_, _, hr, _, hb, _, _⟩ := batch_ops_frame sampleState
  exact ⟨hr.1, hb rfl⟩

/-! ### JSON export/import lemmas -/

lemma find?_key_mem (l : List Entry) (hnd : (l.map Entry.key).Nodup)
    (e : Entry) (he : e ∈ l) :
    l.find? (fun x => x.key = e.key) = some e := by
  induction l with
  | nil => simp at he
  | cons a t ih =>
    simp only [List.map_cons, List.nodup_cons] at hnd
    rcases List.mem_cons.mp he with rfl | hmem
    · exact List.find?_cons_of_pos t (by simp)
    · have hne : ¬ (a.key = e.key) := by
        intro hx
        exact hnd.1 (hx ▸ List.mem_map.mpr ⟨e, hmem, rfl⟩)
      rw [List.find?_cons_of_neg t (by simpa using hne)]
      exact ih hnd.2 hmem

lemma findVal_mem (p : Preferences) (hnd : (p.entries.map Entry.key).Nodup)
    (e : Entry) (he : e ∈ p.entries) :
    p.findVal e.key = some e.val := by
  unfold Preferences.findVal
  rw [find?_key_mem p.entries hnd e he]
  rfl

lemma findVal_empty_key (p : Preferences)
    (hne : ∀ e ∈ p.entries, e.key ≠ "") : p.findVal "" = none := by
  unfold Preferences.findVal
  rw [List.find?_eq_none.mpr (fun x hx => by simpa using hne x hx)]
  rfl

lemma get_not_mem_take {α : Type} (l : List α) (hnd : l.Nodup) :
    ∀ (i : Nat) (h : i < l.length), l[i] ∉ l.take i := by
  induction l with
  | nil => intro i h; simp at h
  | cons a t ih =>
    intro i h
    cases i with
    | zero => simp
    | succ j =>
      have hj : j < t.length := by simpa using h
      rw [List.take_succ_cons]
      intro hmem
      rcases List.mem_cons.mp hmem with hx | hx
      · exact (List.nodup_cons.mp hnd).1 (hx ▸ List.getElem_mem hj)
      · exact ih (List.nodup_cons.mp hnd).2 j hj hx

lemma key_fresh_take (l : List Entry) (hnd : (l.map Entry.key).Nodup)
    (i : Nat) (h : i < l.length) :
    ∀ kv ∈ (l.take i).map Entry.toPair, kv.1 ≠ l[i].key := by
  intro kv hkv
  rcases List.mem_map.mp hkv with ⟨e, he, rfl⟩
  intro hx
  have h' : i < (l.map Entry.key).length := by simpa using h
  apply get_not_mem_take (l.map Entry.key) hnd i h'
  rw [List.getElem_map]
  rw [← List.map_take]
  exact List.mem_map.mpr ⟨e, he, by simpa [Entry.toPair] using hx⟩

lemma upsert_fresh (m : List (String × JVal)) (k : String) (v : JVal)
    (h : ∀ kv ∈ m, kv.1 ≠ k) : upsert m k v = m ++ [(k, v)] := by
  unfold upsert
  rw [if_neg]
  intro hx
  rcases List.any_eq_true.mp hx with ⟨kv, hkv, hk⟩
  exact h kv hkv (by simpa using hk)

lemma exportStep_at (p : Preferences)
    (hnd : (p.entries.map Entry.key).Nodup)
    (hscal : ∀ e ∈ p.entries, e.val.isScalar = true)
    (m : Nat) (hm : m < p.entries.length) :
    exportStep p ((p.entries.take m).map Entry.toPair) m
      = ((p.entries.take m).map Entry.toPair)
          ++ [Entry.toPair p.entries[m]] := by
  have he : p.entries[m] ∈ p.entries := List.getElem_mem hm
  have hkeyAt : p.keyAt m = p.entries[m].key := by
    unfold Preferences.keyAt
    rw [List.get?_eq_getElem?, List.getElem?_eq_getElem hm]
  have hfind : p.findVal p.entries[m].key = some p.entries[m].val :=
    findVal_mem p hnd _ he
  have hfresh := key_fresh_take p.entries hnd m hm
  rcases hv : p.entries[m].val with i | b | str | u
  · have htype : p.getType p.entries[m].key = "i" := by
      unfold Preferences.getType; rw [hfind, hv]
    have hval : p.getIntD p.entries[m].key 0 = i := by
      unfold Preferences.getIntD; rw [hfind, hv]
    unfold exportStep
    rw [hkeyAt, htype, if_pos rfl, hval,
      upsert_fresh _ _ _ hfresh]
    simp [Entry.toPair, hv]
  · have htype : p.getType p.entries[m].key = "f" := by
      unfold Preferences.getType; rw [hfind, hv]
    have hval : p.getFloatD p.entries[m].key 0 = b := by
      unfold Preferences.getFloatD; rw [hfind, hv]
    unfold exportStep
    rw [hkeyAt, htype, if_neg (by decide), if_pos rfl, hval,
      upsert_fresh _ _ _ hfresh]
    simp [Entry.toPair, hv]
  · have htype : p.getType p.entries[m].key = "s" := by
      unfold Preferences.getType; rw [hfind, hv]
    have hval : p.getStringD p.entries[m].key "" = str := by
      unfold Preferences.getStringD; rw [hfind, hv]
    unfold exportStep
    rw [hkeyAt, htype, if_neg (by decide), if_neg (by decide),
      if_pos rfl, hval, upsert_fresh _ _ _ hfresh]
    simp [Entry.toPair, hv]
  · have := hscal p.entries[m] he
    rw [hv] at this
    simp [PrefVal.isScalar] at this

lemma export_fold_range (p : Preferences)
    (hnd : (p.entries.map Entry.key).Nodup)
    (hscal : ∀ e ∈ p.entries, e.val.isScalar = true) :
    ∀ n, n ≤ p.entries.length →
      (List.range n).foldl (exportStep p) []
        = (p.entries.take n).map Entry.toPair := by
  intro n
  induction n with
  | zero => intro _; rfl
  | succ m ih =>
    intro h
    have hm : m < p.entries.length := by omega
    rw [List.range_succ, List.foldl_append, ih (by omega)]
    show exportStep p ((p.entries.take m).map Entry.toPair) m = _
    rw [exportStep_at p hnd hscal m hm]
    conv_rhs => rw [List.take_succ, List.getElem?_eq_getElem hm]
    simp only [List.map_append, List.map_take]
    simp

lemma export_fold_pad (p : Preferences)
    (hne : ∀ e ∈ p.entries, e.key ≠ "") :
    ∀ (ixs : List Nat), (∀ i ∈ ixs, p.entries.length ≤ i) →
      ∀ acc, ixs.foldl (exportStep p) acc = acc := by
  intro ixs
  induction ixs with
  | nil => intro _ acc; rfl
  | cons i tl ih =>
    intro h acc
    have hi : p.entries.length ≤ i := h i (by simp)
    have hkeyAt : p.keyAt i = "" := by
      unfold Preferences.keyAt
      rw [List.get?_eq_getElem?, List.getElem?_eq_none hi]
    have htype : p.getType "" = "" := by
      unfold Preferences.getType
      rw [findVal_empty_key p hne]
    have hstep : exportStep p acc i = acc := by
      simp [exportStep, hkeyAt, htype]
    rw [List.foldl_cons, hstep, ih (fun j hj => h j (by simp [hj]))]

lemma exportTree_eq (p : Preferences)
    (hnd : (p.entries.map Entry.key).Nodup)
    (hne : ∀ e ∈ p.entries, e.key ≠ "")
    (hscal : ∀ e ∈ p.entries, e.val.isScalar = true)
    (hfree : p.entries.length ≤ p.freeEntries) :
    exportTree p = p.entries.map Entry.toPair := by
  unfold exportTree
  have hsplit : p.freeEntries
      = p.entries.length + (p.freeEntries - p.entries.length) := by omega
  rw [hsplit, List.range_add, List.foldl_append]
  rw [export_fold_range p hnd hscal p.entries.length le_rfl,
    List.take_length]
  apply export_fold_pad p hne
  intro i hi
  rcases List.mem_map.mp hi with ⟨j, _, rfl⟩
  omega

lemma importPair_toPair (s : CalState) (e : Entry)
    (h1 : s.initialized = true)
    (hscal : e.val.isScalar = true)
    (hany : s.preferences.entries.any (fun x => x.key = e.key) = false)
    (hlt : s.preferences.entries.length < s.preferences.capacity) :
    importPair s (Entry.toPair e)
      = { s with preferences := { s.preferences with
            entries := s.preferences.entries ++ [e] } } := by
  obtain ⟨k, v⟩ := e
  rcases v with i | b | str | u
  · show (setCalibrationValueInt s k i).2 = _
    simp [setCalibrationValueInt, h1, Preferences.put, hany, hlt]
  · show (setCalibrationValueFloat s k b).2 = _
    simp [setCalibrationValueFloat, h1, Preferences.put, hany, hlt]
  · show (setCalibrationValueString s k str).2 = _
    simp [setCalibrationValueString, h1, Preferences.put, hany, hlt]
  · simp [PrefVal.isScalar] at hscal

lemma import_fold : ∀ (rem : List Entry) (s : CalState),
    s.initialized = true →
    ((s.preferences.entries ++ rem).map Entry.key).Nodup →
    s.preferences.entries.length + rem.length ≤ s.preferences.capacity →
    (∀ e ∈ rem, e.val.isScalar = true) →
    (rem.map Entry.toPair).foldl importPair s
      = { s with preferences := { s.preferences with
            entries := s.preferences.entries ++ rem } } := by
  intro rem
  induction rem with
  | nil =>
    intro s h1 _ _ _
    simp
  | cons e rest ih =>
    intro s h1 hnd hcap hscal
    have hkey_notmem : e.key ∉ s.preferences.entries.map Entry.key := by
      rw [List.map_append] at hnd
      have hd := (List.nodup_append.mp hnd).2.2
      intro hx
      exact hd hx (by simp)
    have hany : s.preferences.entries.any (fun x => x.key = e.key)
        = false := by
      rw [List.any_eq_false]
      intro x hx hxx
      exact hkey_notmem
        ((by simpa using hxx : x.key = e.key)
          ▸ List.mem_map.mpr ⟨x, hx, rfl⟩)
    have hlt : s.preferences.entries.length < s.preferences.capacity := by
      simp only [List.length_cons] at hcap
      omega
    rw [List.map_cons, List.foldl_cons,
      importPair_toPair s e h1 (hscal e (by simp)) hany hlt]
    have hrec := ih
      { s with preferences := { s.preferences with
          entries := s.preferences.entries ++ [e] } }
      h1
      (by show (List.map Entry.key
            ((s.preferences.entries ++ [e]) ++ rest)).Nodup
          rw [List.append_assoc, List.singleton_append]; exact hnd)
      (by show (s.preferences.entries ++ [e]).length + rest.length
            ≤ s.preferences.capacity
          simp only [List.length_append, List.length_cons,
            List.length_nil] at hcap ⊢
          omega)
      (fun x hx => hscal x (by simp [hx]))
    rw [hrec]
    simp [List.append_assoc]

/-- C1 (amended): provided the open namespace's free-entry count is at
least its stored-entry count (the `exportToJson` loop iterates
`freeEntries()` times), exporting, clearing, then importing restores
exactly the original entries — in particular the same set of
non-reserved keys with equal values — and `importFromJson` drops JSON
values of unsupported shapes (null/array/object) without an error. -/
theorem export_clear_import_roundtrip (s : CalState)
    (hinit : s.initialized = true)
    (hnd : (s.preferences.entries.map Entry.key).Nodup)
    (hne : ∀ e ∈ s.preferences.entries, e.key ≠ "")
    (hscal : ∀ e ∈ s.preferences.entries, e.val.isScalar = true)
    (hfree : s.preferences.entries.length ≤ s.preferences.freeEntries) :
    (exportToJson s).1 = some (exportTree s.preferences)
    ∧ (clearAllCalibrationValues s).1 = true
    ∧ (importFromJson (clearAllCalibrationValues s).2
        (exportTree s.preferences)).1 = true
    ∧ (importFromJson (clearAllCalibrationValues s).2
        (exportTree s.preferences)).2.preferences.entries
      = s.preferences.entries
    ∧ (∀ k v, v = JVal.jNull ∨ v = JVal.jArr ∨ v = JVal.jObj →
        importFromJson s [(k, v)] = (true, s)) := by
  have hcap : s.preferences.entries.length ≤ s.preferences.capacity := by
    unfold Preferences.freeEntries at hfree
    omega
  have hclear : (clearAllCalibrationValues s).2
      = { s with preferences := { s.preferences with entries := [] } } := by
    simp [clearAllCalibrationValues, Preferences.clear, hinit]
  refine ⟨by simp [exportToJson, hinit],
    by simp [clearAllCalibrationValues, Preferences.clear, hinit],
    ?_, ?_, ?_⟩
  · rw [hclear]
    simp [importFromJson, hinit]
  · rw [hclear, exportTree_eq s.preferences hnd hne hscal hfree]
    have himp := import_fold s.preferences.entries
      { s with preferences := { s.preferences with entries := [] } }
      (by simpa using hinit)
      (by simpa using hnd)
      (by simpa using hcap)
      hscal
    simp only [importFromJson, hinit] at himp ⊢
    simp only [List.nil_append] at himp
    simp [himp, hinit]
  · intro k v hv
    rcases hv with rfl | rfl | rfl <;>
      simp [importFromJson, hinit, importPair]

/-- C1 witness: the concrete healthy namespace `sampleState` (one int,
one float, one string entry, five free slots) round-trips exactly. -/
theorem export_clear_import_roundtrip_witness :
    (importFromJson (clearAllCalibrationValues sampleState).2
        (exportTree sampleState.preferences)).2.preferences.entries
      = sampleState.preferences.entries :=
  (export_clear_import_roundtrip sampleState rfl (by decide) (by decide)
    (by decide) (by decide)).2.2.2.1

/-- C1 counterexample: the crowded namespace `crowdedState` (three int
entries, one free slot) satisfies the claim's premise — it is open and
holds only int values — yet export/clear/import silently loses the
keys "b" and "c", so the original key set is not restored. -/
theorem export_clear_import_roundtrip_cex :
    crowdedState.initialized = true
    ∧ (∀ e ∈ crowdedState.preferences.entries, e.val.isScalar = true)
    ∧ (exportToJson crowdedState).1.isSome = true
    ∧ (importFromJson (clearAllCalibrationValues crowdedState).2
        ((exportToJson crowdedState).1.getD [])).1 = true
    ∧ (importFromJson (clearAllCalibrationValues crowdedState).2
        ((exportToJson crowdedState).1.getD [])).2.preferences.isKey "b"
      = false
    ∧ crowdedState.preferences.isKey "b" = true := by
  decide

/-- C2 (amended): `exportToJson` iterates `freeEntries()`-many
enumeration indices, not the stored-entry count; whenever the
free-entry count is at least the stored-entry count it visits every
entry of the open namespace and emits the flat JSON object mapping
each key to its value as the native JSON type selected by the stored
type tag (number for int and float entries, string for string
entries), leaving the accessor state unchanged. -/
theorem exportToJson_emits_typed_object (s : CalState)
    (hinit : s.initialized = true)
    (hnd : (s.preferences.entries.map Entry.key).Nodup)
    (hne : ∀ e ∈ s.preferences.entries, e.key ≠ "")
    (hscal : ∀ e ∈ s.preferences.entries, e.val.isScalar = true)
    (hfree : s.preferences.entries.length ≤ s.preferences.freeEntries) :
    (exportToJson s).1 = some (s.preferences.entries.map Entry.toPair)
    ∧ (exportToJson s).2 = s := by
  constructor
  · simp [exportToJson, hinit,
      exportTree_eq s.preferences hnd hne hscal hfree]
  · simp [exportToJson, hinit]

/-- C2 witness: on the healthy `sampleState`, the export emits exactly
the three stored entries with their native JSON types. -/
theorem exportToJson_emits_typed_object_witness :
    (exportToJson sampleState).1
      = some [("offset", JVal.jInt 42), ("scale", JVal.jFloat 3),
              ("name", JVal.jStr "X")] := by
  rw [(exportToJson_emits_typed_object sampleState rfl (by decide)
    (by decide) (by decide) (by decide)).1]
  decide

/-- C2 counterexample: in the crowded namespace the stored key "b" is
present but the emitted JSON object does not contain it — the loop
bound `freeEntries()` (= 1) is smaller than the entry count (= 3), so
not every stored entry is visited. -/
theorem exportToJson_emits_typed_object_cex :
    crowdedState.initialized = true
    ∧ crowdedState.preferences.isKey "b" = true
    ∧ (exportToJson crowdedState).1 = some [("a", JVal.jInt 1)]
    ∧ (((exportToJson crowdedState).1.getD []).map Prod.fst).contains "b"
      = false := by
  decide

end CalibrationLib
